import Mathlib

/-!
Shallow embedding of `src/Experiments/editFaces.py` (FaceEditing_ContinualGAN).

numpy arrays are modelled as total index functions with explicit extents;
float samples are modelled as rationals (every operation in the script is
`+`, `-`, `*`, `/`, `abs`, `max` on exactly representable values); the
fallible normalization (division by a zero maximum) returns `Option`.
Image decoding, the TensorFlow inference call and file I/O are external
collaborators and stay outside the model: each modelled function takes the
already-decoded arrays the script would pass to it.
-/

/-- A pixel image: a total function from (row, column) coordinates to pixel
values of type `α`.  A numpy array of shape `h × w × …` is modelled as such an
index function together with its extents, passed explicitly where needed. -/
def Img (α : Type) : Type := Nat → Nat → α

/-- Single-channel image (two-dimensional float array, samples as rationals). -/
abbrev Image1 : Type := Img ℚ

/-- Three-channel image: the pixel value is a function from the channel index
(`0`, `1`, `2` for red, green, blue) to the sample. -/
abbrev Image3 : Type := Img (Nat → ℚ)

/-- The all-zero single-channel image (`np.zeros`). -/
def zero1 : Image1 := fun _ _ => 0

/-- The all-zero three-channel image: `black_image = np.zeros((1, 96, 96, 3))`
in `save_generated_output`, also used as spacer content. -/
def black_image : Image3 := fun _ _ _ => 0

/-- Row-major list of the samples of the `h × w` region of a single-channel
array: the multiset `numpy`'s `.max()` reduces over. -/
def arrElems1 (img : Image1) (h w : Nat) : List ℚ :=
  (List.range h).flatMap fun y => (List.range w).map fun x => img y x

/-- `img.max()` for a single-channel `h × w` array.  For `0 < h` and `0 < w`
the seed `img 0 0` is itself one of the samples, so this is exactly the
largest sample (numpy raises on empty arrays, which never occur here). -/
def arrMax1 (img : Image1) (h w : Nat) : ℚ :=
  (arrElems1 img h w).foldl max (img 0 0)

/-- Row-major list of the samples of the `h × w × 3` region of a
three-channel array. -/
def arrElems3 (img : Image3) (h w : Nat) : List ℚ :=
  (List.range h).flatMap fun y => (List.range w).flatMap fun x =>
    (List.range 3).map fun c => img y x c

/-- `img.max()` for a three-channel `h × w × 3` array (see `arrMax1`). -/
def arrMax3 (img : Image3) (h w : Nat) : ℚ :=
  (arrElems3 img h w).foldl max (img 0 0 0)

/-- `normalize_image(img, maximum)` on a single-channel `h × w` array:
`img /= img.max()/maximum`.  When the array's maximum is exactly zero the
division is a division by zero and the result is undefined (`none`). -/
def normalize_image (img : Image1) (h w : Nat) (maximum : ℚ) : Option Image1 :=
  if arrMax1 img h w = 0 then none
  else some fun y x => img y x / (arrMax1 img h w / maximum)

/-- `normalize_image(img, maximum)` on a three-channel `96 × 96 × 3`-style
`h × w × 3` array (the same source function, applied to a 3-d array). -/
def normalize_image3 (img : Image3) (h w : Nat) (maximum : ℚ) : Option Image3 :=
  if arrMax3 img h w = 0 then none
  else some fun y x c => img y x c / (arrMax3 img h w / maximum)

/-- `get_max_difference(img1, img2)`: per pixel, the maximum over the three
channels of the absolute channel difference. -/
def get_max_difference (img1 img2 : Image3) : Image1 := fun y x =>
  max (max |img2 y x 0 - img1 y x 0| |img2 y x 1 - img1 y x 1|)
    |img2 y x 2 - img1 y x 2|

/-- One slice assignment `frame[r*p:(r+1)*p, c*p:(c+1)*p] = img` on an image
with cell size `p`. -/
def writeCell {α : Type} (p : Nat) (frame : Img α) (img : Img α) (r c : Nat) :
    Img α := fun y x =>
  if r * p ≤ y ∧ y < (r + 1) * p ∧ c * p ≤ x ∧ x < (c + 1) * p then
    img (y - r * p) (x - c * p)
  else frame y x

/-- Row-major tiling of a sequence of `p × p` sub-images into a canvas of
`cols` cell columns: start from an all-zero frame and, for each
`(index, image)` pair of `enumerate(images)`, assign the cell at row
`index / cols`, column `index % cols` (the loop bodies of `tile_to_square`
and `save_generated_output`). -/
def compose {α : Type} (zero : α) (images : List (Img α)) (p cols : Nat) :
    Img α :=
  images.enum.foldl
    (fun frame e => writeCell p frame e.2 (e.1 / cols) (e.1 % cols))
    (fun _ _ => zero)

/-- Row-major extraction of `rows × cols` cells of size `p × p` from a canvas,
starting at cell-column `colOffset`: for `r` in `range rows`, `c` in
`range cols`, the slice `canvas[r*p:(r+1)*p, p*(c+colOffset):p*(c+colOffset+1)]`. -/
def extract {α : Type} (canvas : Img α) (p cols rows colOffset : Nat) :
    List (Img α) :=
  (List.range rows).flatMap fun r => (List.range cols).map fun c =>
    fun y x => canvas (r * p + y) (p * (c + colOffset) + x)

/-- `tile_to_square(images)`: tile 49 single-channel `96 × 96` images into a
`672 × 672` frame, 7 cells per row (`index_column = index % 7`,
`index_row = index // 7`). -/
def tile_to_square (images : List Image1) : Image1 :=
  compose 0 images 96 7

/-- `get_generated_images(path, p=96)`: cut the 49 generated sub-images out of
a composite saved in network output format — for `r` and `c` in `range(7)`,
the slice `img[r*p:(r+1)*p, p*(c+3):p*(c+4)]`, appended row-major. -/
def get_generated_images (img : Image3) : List Image3 :=
  extract img 96 7 7 3

/-- The concatenated 70-element cell list built by `save_generated_output`:
`np.concatenate([black_image3, generated_outp[:7], black_image3,
generated_outp[7:14], black_image3, generated_outp[14:21], black_image, inp,
black_image, generated_outp[21:28], black_image3, generated_outp[28:35],
black_image3, generated_outp[35:42], black_image3, generated_outp[42:]])`. -/
def final_image_list (inp : Image3) (generated_outp : List Image3) :
    List Image3 :=
  List.replicate 3 black_image ++ generated_outp.take 7 ++
  List.replicate 3 black_image ++ (generated_outp.drop 7).take 7 ++
  List.replicate 3 black_image ++ (generated_outp.drop 14).take 7 ++
  [black_image] ++ [inp] ++ [black_image] ++ (generated_outp.drop 21).take 7 ++
  List.replicate 3 black_image ++ (generated_outp.drop 28).take 7 ++
  List.replicate 3 black_image ++ (generated_outp.drop 35).take 7 ++
  List.replicate 3 black_image ++ generated_outp.drop 42

/-- The `final_image` canvas of `save_generated_output`: the 70 cells of
`final_image_list`, tiled into a `(96*7) × (96*10)` frame with
`index_column = index % 10`, `index_row = index // 10`. -/
def save_generated_output_canvas (inp : Image3) (generated_outp : List Image3) :
    Image3 :=
  compose (fun _ => 0) (final_image_list inp generated_outp) 96 10

/-- Truncation of a float sample toward zero, as `astype('uint8')` /
`Image.convert('L')` truncate (the C float-to-integer cast). -/
def rat_trunc (q : ℚ) : ℤ :=
  if 0 ≤ q then ⌊q⌋ else -⌊-q⌋

/-- The 8-bit pixel values stored by `save_image(img_array, path)`:
`img_array.astype('uint8')`, i.e. truncation toward zero reduced mod 256. -/
def save_image_pixels (img : Image3) : Nat → Nat → Nat → ℤ := fun y x c =>
  rat_trunc (img y x c) % 256

/-- The 8-bit pixel values stored by `save_image_black_and_white(img_array,
path)` (`Image.convert('L')` truncates the float samples). -/
def save_image_black_and_white_pixels (img : Image1) : Nat → Nat → ℤ :=
  fun y x => rat_trunc (img y x) % 256

/-- The full saved composite of `save_generated_output`:
`save_image((final_image+1)*255/2, path)`. -/
def saved_generated_output (inp : Image3) (generated_outp : List Image3) :
    Nat → Nat → Nat → ℤ :=
  save_image_pixels
    (fun y x c => (save_generated_output_canvas inp generated_outp y x c + 1) * 255 / 2)

/-- `load_image_as_network_input(image_path)` after decoding: the decoded
`96 × 96 × 3` float array is passed through `normalize_image(image, 2)` and
then shifted by `-1`. -/
def load_image_as_network_input (image : Image3) : Option Image3 :=
  (normalize_image3 image 96 96 2).map fun im => fun y x c => im y x c - 1

/-- The per-file difference canvas built inside the loop of
`compute_overall_difference`: extract the 49 generated images, take index 24
as the neutral one, map `get_max_difference` against it over all 49, and tile
the results to a `672 × 672` square. -/
def per_file_difference_square (canvas : Image3) : Image1 :=
  let gen_images := get_generated_images canvas
  let neutral_generated_image := gen_images.getD 24 black_image
  let differences := gen_images.map fun im =>
    get_max_difference im neutral_generated_image
  tile_to_square differences

/-- One iteration of the accumulation loop of `compute_overall_difference`
on the state `(res, allover_max)`: `m = differences_square.max()`,
`if m > allover_max: allover_max = m`, `res = res + differences_square`. -/
def accumulate_step (st : Image1 × ℚ) (differences_square : Image1) :
    Image1 × ℚ :=
  (fun y x => st.1 y x + differences_square y x,
   if st.2 < arrMax1 differences_square 672 672 then
     arrMax1 differences_square 672 672
   else st.2)

/-- `compute_overall_difference` on the already-decoded composite files of the
directory: fold the accumulation loop over the per-file difference squares
starting from `(np.zeros((672, 672)), 0)`, then normalize the summed canvas
against the accumulated maximum (undefined when that maximum is zero). -/
def compute_overall_difference (files : List Image3) : Option Image1 :=
  let acc := (files.map per_file_difference_square).foldl accumulate_step
    (zero1, 0)
  normalize_image acc.1 672 672 acc.2

/-- The grayscale pixels `compute_overall_difference` hands to
`save_image_black_and_white(differences, save_name)`. -/
def compute_overall_difference_saved (files : List Image3) :
    Option (Nat → Nat → ℤ) :=
  (compute_overall_difference files).map save_image_black_and_white_pixels

/-- `np.arange(0.75, -0.751, -0.25)`: the seven label values
`0.75, 0.5, 0.25, 0.0, -0.25, -0.5, -0.75` (`start + k * step`, and the step
count is `ceil((stop - start) / step) = 7`). -/
def label_steps : List ℚ :=
  (List.range 7).map fun k => 3 / 4 - (k : ℚ) * (1 / 4)

/-- `valence = np.repeat(np.arange(0.75, -0.751, -0.25), 7)`: each of the
seven values repeated 7 times in place (varies slowest). -/
def valence_labels : List ℚ :=
  label_steps.flatMap fun v => List.replicate 7 v

/-- `arousal`: seven copies of the seven label values, flattened (the full
cycle repeats every 7 entries, varies fastest). -/
def arousal_labels : List ℚ :=
  (List.replicate 7 label_steps).flatten

/-- The ordered 49-element (valence, arousal) label grid fed to the network
in `apply_network_to_images_of_dir`. -/
def label_grid : List (ℚ × ℚ) :=
  valence_labels.zip arousal_labels

/-- Spec-side description of cell `i` of the annotated output canvas, used to
compare the built `final_image_list` against the layout the spec states:
triple spacer, images 0–6, triple spacer, images 7–13, triple spacer, images
14–20, spacer, input, spacer, images 21–27, triple spacer, images 28–34,
triple spacer, images 35–41, triple spacer, images 42–48. -/
def expectedCell (inp : Image3) (generated_outp : List Image3) (i : Nat) :
    Image3 :=
  if i < 3 then black_image
  else if i < 10 then generated_outp.getD (i - 3) black_image
  else if i < 13 then black_image
  else if i < 20 then generated_outp.getD (i - 6) black_image
  else if i < 23 then black_image
  else if i < 30 then generated_outp.getD (i - 9) black_image
  else if i < 31 then black_image
  else if i < 32 then inp
  else if i < 33 then black_image
  else if i < 40 then generated_outp.getD (i - 12) black_image
  else if i < 43 then black_image
  else if i < 50 then generated_outp.getD (i - 15) black_image
  else if i < 53 then black_image
  else if i < 60 then generated_outp.getD (i - 18) black_image
  else if i < 63 then black_image
  else generated_outp.getD (i - 21) black_image

/-- Concrete composite for the corner-difference scenario: every extracted
sub-image is all zero except the corner cell (grid row 0, grid column 0,
pixel block rows `0–95`, canvas columns `288–383`), whose red channel is 10
everywhere. -/
def cornerScenarioCanvas : Image3 := fun y x c =>
  if y < 96 ∧ 288 ≤ x ∧ x < 384 ∧ c = 0 then 10 else 0

/-! ## Helper lemmas on `foldl max` and array maxima -/

/-- Folding `max` over elements all bounded by the seed leaves the seed. -/
theorem foldl_max_eq_of_le {l : List ℚ} {a : ℚ} (h : ∀ x ∈ l, x ≤ a) :
    l.foldl max a = a := by
  induction l with
  | nil => rfl
  | cons b t ih =>
    have hb : max a b = a := max_eq_left (h b (List.mem_cons_self b t))
    simp only [List.foldl_cons, hb]
    exact ih fun x hx => h x (List.mem_cons_of_mem _ hx)

/-- The seed is below the fold of `max`. -/
theorem le_foldl_max_seed (l : List ℚ) (a : ℚ) : a ≤ l.foldl max a := by
  induction l generalizing a with
  | nil => exact le_refl a
  | cons b t ih =>
    simpa using le_trans (le_max_left a b) (ih (max a b))

/-- Every member is below the fold of `max`. -/
theorem le_foldl_max_of_mem {l : List ℚ} {x : ℚ} (hx : x ∈ l) (a : ℚ) :
    x ≤ l.foldl max a := by
  induction l generalizing a with
  | nil => cases hx
  | cons b t ih =>
    rcases List.mem_cons.mp hx with h | h
    · subst h
      simpa using le_trans (le_max_right a x) (le_foldl_max_seed t (max a x))
    · simpa using ih h (max a b)

/-- A fold of `max` commutes with a map by a `max`-homomorphism. -/
theorem foldl_max_map (f : ℚ → ℚ) (hf : ∀ u v, f (max u v) = max (f u) (f v))
    (l : List ℚ) (a : ℚ) : (l.map f).foldl max (f a) = f (l.foldl max a) := by
  induction l generalizing a with
  | nil => rfl
  | cons b t ih => simpa [hf] using ih (max a b)

/-- Membership in the sample list of a single-channel array. -/
theorem mem_arrElems1 (img : Image1) {h w y x : Nat} (hy : y < h)
    (hx : x < w) : img y x ∈ arrElems1 img h w := by
  simp only [arrElems1, List.mem_flatMap, List.mem_map, List.mem_range]
  exact ⟨y, hy, x, hx, rfl⟩

/-- Characterization of the samples of a single-channel array. -/
theorem of_mem_arrElems1 {img : Image1} {h w : Nat} {z : ℚ}
    (hz : z ∈ arrElems1 img h w) : ∃ y < h, ∃ x < w, z = img y x := by
  simp only [arrElems1, List.mem_flatMap, List.mem_map, List.mem_range] at hz
  obtain ⟨y, hy, x, hx, rfl⟩ := hz
  exact ⟨y, hy, x, hx, rfl⟩

/-- Membership in the sample list of a three-channel array. -/
theorem mem_arrElems3 (img : Image3) {h w y x c : Nat} (hy : y < h)
    (hx : x < w) (hc : c < 3) : img y x c ∈ arrElems3 img h w := by
  simp only [arrElems3, List.mem_flatMap, List.mem_map, List.mem_range]
  exact ⟨y, hy, x, hx, c, hc, rfl⟩

/-- Characterization of the samples of a three-channel array. -/
theorem of_mem_arrElems3 {img : Image3} {h w : Nat} {z : ℚ}
    (hz : z ∈ arrElems3 img h w) : ∃ y < h, ∃ x < w, ∃ c < 3, z = img y x c := by
  simp only [arrElems3, List.mem_flatMap, List.mem_map, List.mem_range] at hz
  obtain ⟨y, hy, x, hx, c, hc, rfl⟩ := hz
  exact ⟨y, hy, x, hx, c, hc, rfl⟩

/-- The maximum of an array is an upper bound for every in-range sample. -/
theorem le_arrMax1 (img : Image1) {h w y x : Nat} (hy : y < h) (hx : x < w) :
    img y x ≤ arrMax1 img h w :=
  le_foldl_max_of_mem (mem_arrElems1 img hy hx) _

/-- Any array whose in-range samples are all bounded by the sample at the
origin has that sample as maximum. -/
theorem arrMax1_eq_of_le {img : Image1} {h w : Nat}
    (hb : ∀ y < h, ∀ x < w, img y x ≤ img 0 0) : arrMax1 img h w = img 0 0 := by
  refine foldl_max_eq_of_le fun z hz => ?_
  obtain ⟨y, hy, x, hx, rfl⟩ := of_mem_arrElems1 hz
  exact hb y hy x hx

/-- The maximum of a three-channel array bounds every in-range sample. -/
theorem le_arrMax3 (img : Image3) {h w y x c : Nat} (hy : y < h) (hx : x < w)
    (hc : c < 3) : img y x c ≤ arrMax3 img h w :=
  le_foldl_max_of_mem (mem_arrElems3 img hy hx hc) _

/-- Any three-channel array whose in-range samples are all bounded by the
sample at the origin has that sample as maximum. -/
theorem arrMax3_eq_of_le {img : Image3} {h w : Nat}
    (hb : ∀ y < h, ∀ x < w, ∀ c < 3, img y x c ≤ img 0 0 0) :
    arrMax3 img h w = img 0 0 0 := by
  refine foldl_max_eq_of_le fun z hz => ?_
  obtain ⟨y, hy, x, hx, c, hc, rfl⟩ := of_mem_arrElems3 hz
  exact hb y hy x hx c hc

/-- The maximum of a constant three-channel array is the constant. -/
theorem arrMax3_const (q : ℚ) (h w : Nat) :
    arrMax3 (fun _ _ _ => q) h w = q :=
  arrMax3_eq_of_le fun _ _ _ _ _ _ => le_refl q

/-- The maximum of a constant single-channel array is the constant. -/
theorem arrMax1_const (q : ℚ) (h w : Nat) :
    arrMax1 (fun _ _ => q) h w = q :=
  arrMax1_eq_of_le fun _ _ _ _ => le_refl q

/-! ## Geometry of the tiling: reading cells back from a composed canvas -/

/-- A pixel row `b * p + y` with in-cell offset `y < p` lies in the pixel
band of cell row `a` exactly when `a = b`. -/
theorem cell_cover_iff {p a b y : Nat} (_hp : 0 < p) (hy : y < p) :
    (a * p ≤ b * p + y ∧ b * p + y < (a + 1) * p) ↔ a = b := by
  constructor
  · rintro ⟨h1, h2⟩
    have hlt1 : b * p < (a + 1) * p :=
      lt_of_le_of_lt (Nat.le_add_right _ _) h2
    have hb_lt : b < a + 1 := lt_of_mul_lt_mul_right hlt1 (Nat.zero_le p)
    have hlt2 : a * p < (b + 1) * p := by
      have : b * p + y < (b + 1) * p := by
        rw [Nat.succ_mul]
        exact Nat.add_lt_add_left hy _
      exact lt_of_le_of_lt h1 this
    have ha_lt : a < b + 1 := lt_of_mul_lt_mul_right hlt2 (Nat.zero_le p)
    omega
  · rintro rfl
    refine ⟨Nat.le_add_right _ _, ?_⟩
    rw [Nat.succ_mul]
    exact Nat.add_lt_add_left hy _

/-- Reading a slice-assigned frame at the pixel coordinates of cell
`(r, c)` (in-cell offsets `y, x < p`) yields the assigned image exactly when
the assignment targeted that cell, the old frame otherwise. -/
theorem writeCell_read {α : Type} {p : Nat} (frame img : Img α)
    (r' c' r c y x : Nat) (hp : 0 < p) (hy : y < p) (hx : x < p) :
    writeCell p frame img r' c' (r * p + y) (c * p + x)
      = if r' = r ∧ c' = c then img y x
        else frame (r * p + y) (c * p + x) := by
  have hcond : (r' * p ≤ r * p + y ∧ r * p + y < (r' + 1) * p ∧
      c' * p ≤ c * p + x ∧ c * p + x < (c' + 1) * p) ↔ (r' = r ∧ c' = c) := by
    constructor
    · rintro ⟨h1, h2, h3, h4⟩
      exact ⟨(cell_cover_iff hp hy).mp ⟨h1, h2⟩, (cell_cover_iff hp hx).mp ⟨h3, h4⟩⟩
    · rintro ⟨rfl, rfl⟩
      obtain ⟨hy1, hy2⟩ := (cell_cover_iff hp hy).mpr (rfl : r' = r')
      obtain ⟨hx1, hx2⟩ := (cell_cover_iff hp hx).mpr (rfl : c' = c')
      exact ⟨hy1, hy2, hx1, hx2⟩
  unfold writeCell
  by_cases h : r' = r ∧ c' = c
  · obtain ⟨rfl, rfl⟩ := h
    rw [if_pos (hcond.mpr ⟨rfl, rfl⟩), if_pos ⟨rfl, rfl⟩,
      Nat.add_sub_cancel_left, Nat.add_sub_cancel_left]
  · rw [if_neg (fun hcon => h (hcond.mp hcon)), if_neg h]

/-- Reading the fold of slice assignments for `enumerate`-indexed cells
(indices starting at `n`, cell of index `e` at row `e / cols`, column
`e % cols`): pixel coordinates of cell `(r, c)` hold the image of index
`r * cols + c` when that index is among the written ones, the original frame
value otherwise. -/
theorem enumFrom_writeCell_read {α : Type} {p cols : Nat} (hp : 0 < p)
    (hcols : 0 < cols) (d : Img α) (l : List (Img α)) :
    ∀ (n : Nat) (frame : Img α) (r c y x : Nat), y < p → x < p → c < cols →
      ((List.enumFrom n l).foldl
          (fun fr e => writeCell p fr e.2 (e.1 / cols) (e.1 % cols)) frame)
          (r * p + y) (c * p + x)
        = if n ≤ r * cols + c ∧ r * cols + c < n + l.length then
            (l.getD (r * cols + c - n) d) y x
          else frame (r * p + y) (c * p + x) := by
  induction l with
  | nil =>
    intro n frame r c y x _ _ _
    simp only [List.enumFrom, List.foldl_nil, List.length_nil]
    rw [if_neg (by omega)]
  | cons hd t ih =>
    intro n frame r c y x hy hx hc
    have hmod : (n / cols = r ∧ n % cols = c) ↔ n = r * cols + c := by
      constructor
      · rintro ⟨h1, h2⟩
        have h3 := Nat.div_add_mod n cols
        rw [h1, h2, Nat.mul_comm] at h3
        exact h3.symm
      · rintro rfl
        rw [Nat.mul_comm r cols]
        refine ⟨?_, ?_⟩
        · rw [Nat.mul_add_div hcols, Nat.div_eq_of_lt hc, Nat.add_zero]
        · rw [Nat.mul_add_mod, Nat.mod_eq_of_lt hc]
    rw [show List.enumFrom n (hd :: t) = (n, hd) :: List.enumFrom (n + 1) t
        from rfl,
      List.foldl_cons, ih (n + 1) _ r c y x hy hx hc,
      writeCell_read frame hd (n / cols) (n % cols) r c y x hp hy hx]
    simp only [List.length_cons]
    by_cases h1 : n + 1 ≤ r * cols + c ∧ r * cols + c < n + 1 + t.length
    · rw [if_pos h1, if_pos (by omega : n ≤ r * cols + c ∧
        r * cols + c < n + (t.length + 1))]
      rw [show r * cols + c - n = (r * cols + c - (n + 1)) + 1 by omega,
        List.getD_cons_succ]
    · rw [if_neg h1]
      by_cases h2 : n = r * cols + c
      · rw [if_pos (hmod.mpr h2), if_pos (by omega : n ≤ r * cols + c ∧
          r * cols + c < n + (t.length + 1))]
        rw [show r * cols + c - n = 0 by omega, List.getD_cons_zero]
      · rw [if_neg (fun hcon => h2 (hmod.mp hcon)),
          if_neg (by omega : ¬(n ≤ r * cols + c ∧
            r * cols + c < n + (t.length + 1)))]

/-- Reading a composed canvas at the pixel coordinates of cell `(r, c)`
recovers the sub-image of list index `r * cols + c`. -/
theorem compose_read {α : Type} (zero : α) (images : List (Img α))
    {p cols : Nat} (hp : 0 < p) (hcols : 0 < cols) (d : Img α) (r c y x : Nat)
    (hy : y < p) (hx : x < p) (hc : c < cols)
    (hidx : r * cols + c < images.length) :
    compose zero images p cols (r * p + y) (c * p + x)
      = (images.getD (r * cols + c) d) y x := by
  unfold compose
  rw [show images.enum = List.enumFrom 0 images from rfl,
    enumFrom_writeCell_read hp hcols d images 0 _ r c y x hy hx hc,
    if_pos ⟨Nat.zero_le _, by omega⟩, Nat.sub_zero]

/-- The nested extraction loops produce `rows * cols` sub-images. -/
theorem extract_length {α : Type} (canvas : Img α) (p cols rows off : Nat) :
    (extract canvas p cols rows off).length = rows * cols := by
  induction rows with
  | zero => simp [extract]
  | succ n ih =>
    unfold extract at ih ⊢
    rw [List.range_succ, List.flatMap_append, List.length_append, ih,
      List.flatMap_cons, List.flatMap_nil, List.append_nil, List.length_map,
      List.length_range, Nat.succ_mul]

/-- Sub-image `i` of an extraction is the slice of grid row `i / cols`,
grid column `i % cols + colOffset`. -/
theorem extract_getD {α : Type} (canvas : Img α) {p cols rows off : Nat}
    (d : Img α) (i : Nat) (hi : i < rows * cols) (y x : Nat) :
    ((extract canvas p cols rows off).getD i d) y x
      = canvas (i / cols * p + y) (p * (i % cols + off) + x) := by
  induction rows with
  | zero => exact absurd hi (by omega)
  | succ n ih =>
    rw [Nat.succ_mul] at hi
    have hsplit : extract canvas p cols (n + 1) off
        = extract canvas p cols n off ++
          (((List.range cols).map fun c =>
            fun y x => canvas (n * p + y) (p * (c + off) + x)) :
              List (Img α)) := by
      unfold extract
      rw [List.range_succ, List.flatMap_append, List.flatMap_cons,
        List.flatMap_nil, List.append_nil]
    rw [hsplit]
    by_cases hA : i < n * cols
    · rw [List.getD_append _ _ _ _ (by rw [extract_length]; exact hA)]
      exact ih hA
    · rw [List.getD_append_right _ _ _ _ (by rw [extract_length]; omega),
        extract_length]
      have hk : i - n * cols < cols := by omega
      have hdiv : i / cols = n :=
        Nat.div_eq_of_lt_le (by omega) (by rw [Nat.succ_mul]; omega)
      have hmod : i % cols = i - n * cols := by
        have hdm := Nat.div_add_mod i cols
        rw [hdiv, Nat.mul_comm] at hdm
        omega
      rw [List.getD_eq_getElem _ _ (by simpa using hk)]
      simp only [List.getElem_map, List.getElem_range]
      rw [hdiv, hmod]

set_option maxHeartbeats 1000000 in
/-- Resolving cell `i` of the 70-element concatenation against the layout
description `expectedCell`. -/
theorem final_image_list_getD (inp : Image3) (gen : List Image3)
    (hlen : gen.length = 49) (i : Nat) (hi : i < 70) (d : Image3) :
    (final_image_list inp gen).getD i d = expectedCell inp gen i := by
  rcases gen with _ | ⟨g0, gen⟩
  · exact absurd hlen (by simp)
  rcases gen with _ | ⟨g1, gen⟩
  · exact absurd hlen (by simp)
  rcases gen with _ | ⟨g2, gen⟩
  · exact absurd hlen (by simp)
  rcases gen with _ | ⟨g3, gen⟩
  · exact absurd hlen (by simp)
  rcases gen with _ | ⟨g4, gen⟩
  · exact absurd hlen (by simp)
  rcases gen with _ | ⟨g5, gen⟩
  · exact absurd hlen (by simp)
  rcases gen with _ | ⟨g6, gen⟩
  · exact absurd hlen (by simp)
  rcases gen with _ | ⟨g7, gen⟩
  · exact absurd hlen (by simp)
  rcases gen with _ | ⟨g8, gen⟩
  · exact absurd hlen (by simp)
  rcases gen with _ | ⟨g9, gen⟩
  · exact absurd hlen (by simp)
  rcases gen with _ | ⟨g10, gen⟩
  · exact absurd hlen (by simp)
  rcases gen with _ | ⟨g11, gen⟩
  · exact absurd hlen (by simp)
  rcases gen with _ | ⟨g12, gen⟩
  · exact absurd hlen (by simp)
  rcases gen with _ | ⟨g13, gen⟩
  · exact absurd hlen (by simp)
  rcases gen with _ | ⟨g14, gen⟩
  · exact absurd hlen (by simp)
  rcases gen with _ | ⟨g15, gen⟩
  · exact absurd hlen (by simp)
  rcases gen with _ | ⟨g16, gen⟩
  · exact absurd hlen (by simp)
  rcases gen with _ | ⟨g17, gen⟩
  · exact absurd hlen (by simp)
  rcases gen with _ | ⟨g18, gen⟩
  · exact absurd hlen (by simp)
  rcases gen with _ | ⟨g19, gen⟩
  · exact absurd hlen (by simp)
  rcases gen with _ | ⟨g20, gen⟩
  · exact absurd hlen (by simp)
  rcases gen with _ | ⟨g21, gen⟩
  · exact absurd hlen (by simp)
  rcases gen with _ | ⟨g22, gen⟩
  · exact absurd hlen (by simp)
  rcases gen with _ | ⟨g23, gen⟩
  · exact absurd hlen (by simp)
  rcases gen with _ | ⟨g24, gen⟩
  · exact absurd hlen (by simp)
  rcases gen with _ | ⟨g25, gen⟩
  · exact absurd hlen (by simp)
  rcases gen with _ | ⟨g26, gen⟩
  · exact absurd hlen (by simp)
  rcases gen with _ | ⟨g27, gen⟩
  · exact absurd hlen (by simp)
  rcases gen with _ | ⟨g28, gen⟩
  · exact absurd hlen (by simp)
  rcases gen with _ | ⟨g29, gen⟩
  · exact absurd hlen (by simp)
  rcases gen with _ | ⟨g30, gen⟩
  · exact absurd hlen (by simp)
  rcases gen with _ | ⟨g31, gen⟩
  · exact absurd hlen (by simp)
  rcases gen with _ | ⟨g32, gen⟩
  · exact absurd hlen (by simp)
  rcases gen with _ | ⟨g33, gen⟩
  · exact absurd hlen (by simp)
  rcases gen with _ | ⟨g34, gen⟩
  · exact absurd hlen (by simp)
  rcases gen with _ | ⟨g35, gen⟩
  · exact absurd hlen (by simp)
  rcases gen with _ | ⟨g36, gen⟩
  · exact absurd hlen (by simp)
  rcases gen with _ | ⟨g37, gen⟩
  · exact absurd hlen (by simp)
  rcases gen with _ | ⟨g38, gen⟩
  · exact absurd hlen (by simp)
  rcases gen with _ | ⟨g39, gen⟩
  · exact absurd hlen (by simp)
  rcases gen with _ | ⟨g40, gen⟩
  · exact absurd hlen (by simp)
  rcases gen with _ | ⟨g41, gen⟩
  · exact absurd hlen (by simp)
  rcases gen with _ | ⟨g42, gen⟩
  · exact absurd hlen (by simp)
  rcases gen with _ | ⟨g43, gen⟩
  · exact absurd hlen (by simp)
  rcases gen with _ | ⟨g44, gen⟩
  · exact absurd hlen (by simp)
  rcases gen with _ | ⟨g45, gen⟩
  · exact absurd hlen (by simp)
  rcases gen with _ | ⟨g46, gen⟩
  · exact absurd hlen (by simp)
  rcases gen with _ | ⟨g47, gen⟩
  · exact absurd hlen (by simp)
  rcases gen with _ | ⟨g48, gen⟩
  · exact absurd hlen (by simp)
  rcases gen with _ | ⟨g49, gen⟩
  · have hlist : final_image_list inp [g0, g1, g2, g3, g4, g5, g6, g7, g8, g9, g10, g11, g12, g13, g14, g15, g16, g17, g18, g19, g20, g21, g22, g23, g24, g25, g26, g27, g28, g29, g30, g31, g32, g33, g34, g35, g36, g37, g38, g39, g40, g41, g42, g43, g44, g45, g46, g47, g48]
        = [black_image, black_image, black_image, g0, g1, g2, g3, g4, g5, g6,
           black_image, black_image, black_image, g7, g8, g9, g10, g11, g12, g13,
           black_image, black_image, black_image, g14, g15, g16, g17, g18, g19, g20,
           black_image, inp, black_image, g21, g22, g23, g24, g25, g26, g27,
           black_image, black_image, black_image, g28, g29, g30, g31, g32, g33, g34,
           black_image, black_image, black_image, g35, g36, g37, g38, g39, g40, g41,
           black_image, black_image, black_image, g42, g43, g44, g45, g46, g47, g48] := rfl
    rw [hlist]
    interval_cases i <;> rfl
  · exact absurd hlen (by simp only [List.length_cons, List.length_nil]; omega)

/-- The concatenation built by `save_generated_output` has exactly 70 cells. -/
theorem final_image_list_length (inp : Image3) (gen : List Image3)
    (hlen : gen.length = 49) : (final_image_list inp gen).length = 70 := by
  simp only [final_image_list, List.length_append, List.length_replicate,
    List.length_take, List.length_drop, List.length_cons, List.length_nil,
    hlen]
  norm_num

/-- Cell `r * 10 + (k + 3)` of the concatenation (grid row `r`, grid column
`k + 3`) is generated image `r * 7 + k`. -/
theorem final_image_list_getD_gen (inp : Image3) (gen : List Image3)
    (hlen : gen.length = 49) (r k : Nat) (hr : r < 7) (hk : k < 7) :
    (final_image_list inp gen).getD (r * 10 + (k + 3)) black_image
      = gen.getD (r * 7 + k) black_image := by
  rw [final_image_list_getD inp gen hlen _ (by omega) black_image]
  have h7 : r = 0 ∨ r = 1 ∨ r = 2 ∨ r = 3 ∨ r = 4 ∨ r = 5 ∨ r = 6 := by omega
  rcases h7 with rfl | rfl | rfl | rfl | rfl | rfl | rfl <;> unfold expectedCell
  · rw [if_neg (show ¬(0 * 10 + (k + 3) < 3) by omega),
      if_pos (show 0 * 10 + (k + 3) < 10 by omega),
      show 0 * 10 + (k + 3) - 3 = 0 * 7 + k by omega]
  · rw [if_neg (show ¬(1 * 10 + (k + 3) < 3) by omega),
      if_neg (show ¬(1 * 10 + (k + 3) < 10) by omega),
      if_neg (show ¬(1 * 10 + (k + 3) < 13) by omega),
      if_pos (show 1 * 10 + (k + 3) < 20 by omega),
      show 1 * 10 + (k + 3) - 6 = 1 * 7 + k by omega]
  · rw [if_neg (show ¬(2 * 10 + (k + 3) < 3) by omega),
      if_neg (show ¬(2 * 10 + (k + 3) < 10) by omega),
      if_neg (show ¬(2 * 10 + (k + 3) < 13) by omega),
      if_neg (show ¬(2 * 10 + (k + 3) < 20) by omega),
      if_neg (show ¬(2 * 10 + (k + 3) < 23) by omega),
      if_pos (show 2 * 10 + (k + 3) < 30 by omega),
      show 2 * 10 + (k + 3) - 9 = 2 * 7 + k by omega]
  · rw [if_neg (show ¬(3 * 10 + (k + 3) < 3) by omega),
      if_neg (show ¬(3 * 10 + (k + 3) < 10) by omega),
      if_neg (show ¬(3 * 10 + (k + 3) < 13) by omega),
      if_neg (show ¬(3 * 10 + (k + 3) < 20) by omega),
      if_neg (show ¬(3 * 10 + (k + 3) < 23) by omega),
      if_neg (show ¬(3 * 10 + (k + 3) < 30) by omega),
      if_neg (show ¬(3 * 10 + (k + 3) < 31) by omega),
      if_neg (show ¬(3 * 10 + (k + 3) < 32) by omega),
      if_neg (show ¬(3 * 10 + (k + 3) < 33) by omega),
      if_pos (show 3 * 10 + (k + 3) < 40 by omega),
      show 3 * 10 + (k + 3) - 12 = 3 * 7 + k by omega]
  · rw [if_neg (show ¬(4 * 10 + (k + 3) < 3) by omega),
      if_neg (show ¬(4 * 10 + (k + 3) < 10) by omega),
      if_neg (show ¬(4 * 10 + (k + 3) < 13) by omega),
      if_neg (show ¬(4 * 10 + (k + 3) < 20) by omega),
      if_neg (show ¬(4 * 10 + (k + 3) < 23) by omega),
      if_neg (show ¬(4 * 10 + (k + 3) < 30) by omega),
      if_neg (show ¬(4 * 10 + (k + 3) < 31) by omega),
      if_neg (show ¬(4 * 10 + (k + 3) < 32) by omega),
      if_neg (show ¬(4 * 10 + (k + 3) < 33) by omega),
      if_neg (show ¬(4 * 10 + (k + 3) < 40) by omega),
      if_neg (show ¬(4 * 10 + (k + 3) < 43) by omega),
      if_pos (show 4 * 10 + (k + 3) < 50 by omega),
      show 4 * 10 + (k + 3) - 15 = 4 * 7 + k by omega]
  · rw [if_neg (show ¬(5 * 10 + (k + 3) < 3) by omega),
      if_neg (show ¬(5 * 10 + (k + 3) < 10) by omega),
      if_neg (show ¬(5 * 10 + (k + 3) < 13) by omega),
      if_neg (show ¬(5 * 10 + (k + 3) < 20) by omega),
      if_neg (show ¬(5 * 10 + (k + 3) < 23) by omega),
      if_neg (show ¬(5 * 10 + (k + 3) < 30) by omega),
      if_neg (show ¬(5 * 10 + (k + 3) < 31) by omega),
      if_neg (show ¬(5 * 10 + (k + 3) < 32) by omega),
      if_neg (show ¬(5 * 10 + (k + 3) < 33) by omega),
      if_neg (show ¬(5 * 10 + (k + 3) < 40) by omega),
      if_neg (show ¬(5 * 10 + (k + 3) < 43) by omega),
      if_neg (show ¬(5 * 10 + (k + 3) < 50) by omega),
      if_neg (show ¬(5 * 10 + (k + 3) < 53) by omega),
      if_pos (show 5 * 10 + (k + 3) < 60 by omega),
      show 5 * 10 + (k + 3) - 18 = 5 * 7 + k by omega]
  · rw [if_neg (show ¬(6 * 10 + (k + 3) < 3) by omega),
      if_neg (show ¬(6 * 10 + (k + 3) < 10) by omega),
      if_neg (show ¬(6 * 10 + (k + 3) < 13) by omega),
      if_neg (show ¬(6 * 10 + (k + 3) < 20) by omega),
      if_neg (show ¬(6 * 10 + (k + 3) < 23) by omega),
      if_neg (show ¬(6 * 10 + (k + 3) < 30) by omega),
      if_neg (show ¬(6 * 10 + (k + 3) < 31) by omega),
      if_neg (show ¬(6 * 10 + (k + 3) < 32) by omega),
      if_neg (show ¬(6 * 10 + (k + 3) < 33) by omega),
      if_neg (show ¬(6 * 10 + (k + 3) < 40) by omega),
      if_neg (show ¬(6 * 10 + (k + 3) < 43) by omega),
      if_neg (show ¬(6 * 10 + (k + 3) < 50) by omega),
      if_neg (show ¬(6 * 10 + (k + 3) < 53) by omega),
      if_neg (show ¬(6 * 10 + (k + 3) < 60) by omega),
      if_neg (show ¬(6 * 10 + (k + 3) < 63) by omega),
      show 6 * 10 + (k + 3) - 21 = 6 * 7 + k by omega]

/-- C5.  The composed annotated output canvas has exactly 70 cells, laid out
as 7 rows by 10 columns row-major, and cell `(r, c)` holds the content the
fixed sequence prescribes: triple spacer, images 0–6, triple spacer, images
7–13, triple spacer, images 14–20, spacer, input, spacer, images 21–27,
triple spacer, images 28–34, triple spacer, images 35–41, triple spacer,
images 42–48. -/
theorem annotated_canvas_layout (inp : Image3) (gen : List Image3)
    (hlen : gen.length = 49) :
    (final_image_list inp gen).length = 70 ∧
    ∀ r c y x, r < 7 → c < 10 → y < 96 → x < 96 → ∀ ch,
      save_generated_output_canvas inp gen (r * 96 + y) (c * 96 + x) ch
        = expectedCell inp gen (r * 10 + c) y x ch := by
  refine ⟨final_image_list_length inp gen hlen, ?_⟩
  intro r c y x hr hc hy hx ch
  unfold save_generated_output_canvas
  rw [compose_read (fun _ => (0:ℚ)) _ (by norm_num) (by norm_num) black_image
    r c y x hy hx hc (by rw [final_image_list_length inp gen hlen]; omega),
    final_image_list_getD inp gen hlen _ (by omega) black_image]

/-- Witness for C5 at a concrete input: with 49 all-zero generated images the
list has 70 cells and cell `(0, 3)` of the canvas holds generated image 0. -/
theorem annotated_canvas_layout_witness :
    (final_image_list black_image (List.replicate 49 black_image)).length = 70 ∧
    save_generated_output_canvas black_image (List.replicate 49 black_image)
        (0 * 96 + 0) (3 * 96 + 0) 0
      = expectedCell black_image (List.replicate 49 black_image) (0 * 10 + 3)
          0 0 0 := by
  have h := annotated_canvas_layout black_image (List.replicate 49 black_image)
    (by simp)
  exact ⟨h.1, h.2 0 3 0 0 (by norm_num) (by norm_num) (by norm_num)
    (by norm_num) 0⟩

/-- C1.  Tiling round-trip: (a) for every sequence of sub-images and any cell
size and column count, extracting with matching geometry and offset 0 from
the composed canvas returns a sequence of the same length whose entries agree
with the originals on every in-cell pixel; (b) in particular, extracting the
7×7 grid at column offset 3 from the canvas composed by
`save_generated_output` recovers the 49 generated sub-images in order. -/
theorem tiling_round_trip :
    (∀ (images : List Image3) (p cols rows : Nat), 0 < p → 0 < cols →
      images.length = rows * cols →
      ((extract (compose (fun _ => (0:ℚ)) images p cols) p cols rows 0).length
          = images.length ∧
        ∀ i, i < images.length → ∀ y x, y < p → x < p → ∀ ch,
          (extract (compose (fun _ => (0:ℚ)) images p cols) p cols rows 0).getD
              i black_image y x ch
            = images.getD i black_image y x ch)) ∧
    (∀ (inp : Image3) (gen : List Image3), gen.length = 49 →
      ∀ i, i < 49 → ∀ y x, y < 96 → x < 96 → ∀ ch,
        (get_generated_images (save_generated_output_canvas inp gen)).getD
            i black_image y x ch
          = gen.getD i black_image y x ch) := by
  constructor
  · intro images p cols rows hp hcols hlen
    refine ⟨by rw [extract_length, hlen], ?_⟩
    intro i hi y x hy hx ch
    have hi' : i < rows * cols := hlen ▸ hi
    rw [extract_getD _ black_image i hi' y x, Nat.add_zero,
      Nat.mul_comm p (i % cols),
      compose_read (fun _ => (0:ℚ)) images hp hcols black_image (i / cols)
        (i % cols) y x hy hx (Nat.mod_lt i hcols)
        (by rw [Nat.mul_comm (i / cols) cols, Nat.div_add_mod]; exact hi),
      show i / cols * cols + i % cols = i from by
        rw [Nat.mul_comm]; exact Nat.div_add_mod i cols]
  · intro inp gen hlen i hi y x hy hx ch
    unfold get_generated_images
    rw [extract_getD _ black_image i (by omega : i < 7 * 7) y x]
    unfold save_generated_output_canvas
    rw [show 96 * (i % 7 + 3) + x = (i % 7 + 3) * 96 + x by ring,
      compose_read (fun _ => (0:ℚ)) _ (by norm_num) (by norm_num) black_image
        (i / 7) (i % 7 + 3) y x hy hx (by omega)
        (by rw [final_image_list_length inp gen hlen]; omega),
      final_image_list_getD_gen inp gen hlen (i / 7) (i % 7) (by omega)
        (by omega),
      show i / 7 * 7 + i % 7 = i by omega]

/-- Witness for C1: a one-cell round trip at cell size 1, and sub-image 5 of
the extraction of a concretely composed annotated canvas. -/
theorem tiling_round_trip_witness :
    ((extract (compose (fun _ => (0:ℚ)) [black_image] 1 1) 1 1 1 0).getD 0
        black_image 0 0 0
      = [black_image].getD 0 black_image 0 0 0) ∧
    ((get_generated_images (save_generated_output_canvas black_image
        (List.replicate 49 black_image))).getD 5 black_image 2 3 1
      = (List.replicate 49 black_image).getD 5 black_image 2 3 1) := by
  constructor
  · exact (tiling_round_trip.1 [black_image] 1 1 1 (by norm_num) (by norm_num)
      (by norm_num)).2 0 (by norm_num) 0 0 (by norm_num) (by norm_num) 0
  · exact tiling_round_trip.2 black_image (List.replicate 49 black_image)
      (by simp) 5 (by norm_num) 2 3 (by norm_num) (by norm_num) 1

/-- C10.  The display mapping `(x+1)*255/2` is applied to every pixel of the
composed canvas uniformly, and on an all-zero spacer cell the stored 8-bit
value is the mid-gray 127 (not 0). -/
theorem spacer_cells_saved_midgray (inp : Image3) (gen : List Image3)
    (hlen : gen.length = 49) (r c y x ch : Nat) (hr : r < 7) (hc : c < 10)
    (hy : y < 96) (hx : x < 96)
    (hsp : r * 10 + c ∈ ([0, 1, 2, 10, 11, 12, 20, 21, 22, 30, 32, 40, 41,
      42, 50, 51, 52, 60, 61, 62] : List Nat)) :
    saved_generated_output inp gen (r * 96 + y) (c * 96 + x) ch
        = rat_trunc ((save_generated_output_canvas inp gen (r * 96 + y)
            (c * 96 + x) ch + 1) * 255 / 2) % 256 ∧
    saved_generated_output inp gen (r * 96 + y) (c * 96 + x) ch = 127 := by
  have hcell : save_generated_output_canvas inp gen (r * 96 + y)
      (c * 96 + x) ch = 0 := by
    unfold save_generated_output_canvas
    rw [compose_read (fun _ => (0:ℚ)) _ (by norm_num) (by norm_num) black_image
      r c y x hy hx hc (by rw [final_image_list_length inp gen hlen]; omega),
      final_image_list_getD inp gen hlen _ (by omega) black_image]
    simp only [List.mem_cons, List.not_mem_nil, or_false] at hsp
    rcases hsp with h | h | h | h | h | h | h | h | h | h | h | h | h | h | h
      | h | h | h | h | h <;> rw [h] <;> rfl
  refine ⟨rfl, ?_⟩
  show rat_trunc ((save_generated_output_canvas inp gen (r * 96 + y)
    (c * 96 + x) ch + 1) * 255 / 2) % 256 = 127
  rw [hcell]
  rw [show ((0:ℚ) + 1) * 255 / 2 = 255 / 2 by norm_num]
  unfold rat_trunc
  rw [if_pos (by norm_num : (0:ℚ) ≤ 255 / 2),
    show ⌊(255:ℚ) / 2⌋ = 127 from by norm_num [Int.floor_eq_iff]]
  decide

/-- Witness for C10: the top-left spacer cell of a concrete composite is
stored as 127. -/
theorem spacer_cells_saved_midgray_witness :
    saved_generated_output black_image (List.replicate 49 black_image)
      (0 * 96 + 0) (0 * 96 + 0) 0 = 127 :=
  (spacer_cells_saved_midgray black_image (List.replicate 49 black_image)
    (by simp) 0 0 0 0 0 (by norm_num) (by norm_num) (by norm_num) (by norm_num)
    (by norm_num)).2

/-- C4.  In the 49-element label grid, valence varies slowest (7 repeats) and
arousal fastest (cycling every 7): entry `i` is `(label_steps[i/7],
label_steps[i%7])`; in particular entry 24 is exactly (valence 0, arousal 0),
and index 24 of the extracted 7×7 sequence is the cell of grid row 3, grid
column 3 — the neutral reference image `gen_images[24]` used for
differencing. -/
theorem label_grid_center_neutral :
    label_grid.length = 49 ∧
    label_grid.getD 24 (1, 1) = (0, 0) ∧
    (∀ i, i < 49 →
      label_grid.getD i (1, 1)
        = (label_steps.getD (i / 7) 1, label_steps.getD (i % 7) 1)) ∧
    (∀ canvas : Image3, ∀ y x ch : Nat,
      (get_generated_images canvas).getD 24 black_image y x ch
        = canvas (3 * 96 + y) (96 * (3 + 3) + x) ch) := by
  have hsteps : label_steps = [3/4, 1/2, 1/4, 0, -1/4, -1/2, -3/4] := by
    unfold label_steps
    rw [show List.range 7 = [0, 1, 2, 3, 4, 5, 6] by decide]
    norm_num
  refine ⟨rfl, ?_, ?_, ?_⟩
  · unfold label_grid valence_labels arousal_labels
    rw [hsteps]
    rfl
  · intro i hi
    unfold label_grid valence_labels arousal_labels
    rw [hsteps]
    interval_cases i <;> rfl
  · intro canvas y x ch
    rfl

/-- Witness for C4 at the concrete index 10. -/
theorem label_grid_center_neutral_witness :
    label_grid.getD 10 (1, 1)
      = (label_steps.getD (10 / 7) 1, label_steps.getD (10 % 7) 1) :=
  label_grid_center_neutral.2.2.1 10 (by norm_num)

/-- C7.  Scaling an array whose maximum is exactly zero is a division by zero
and fails (is undefined): `normalize_image` is `none` exactly when the
array's maximum is zero, and in particular fails on the all-zero array. -/
theorem normalize_zero_max_fails (img : Image1) (h w : Nat) (maximum : ℚ) :
    (normalize_image img h w maximum = none ↔ arrMax1 img h w = 0) ∧
    normalize_image zero1 h w maximum = none := by
  constructor
  · unfold normalize_image
    constructor
    · intro hnone
      by_contra hmax
      rw [if_neg hmax] at hnone
      exact Option.some_ne_none _ hnone
    · intro hmax
      rw [if_pos hmax]
  · unfold normalize_image
    rw [if_pos (show arrMax1 zero1 h w = 0 from arrMax1_const 0 h w)]

/-- C8.  The batch difference against a reference index has one entry per
image (nothing filtered out), entry `i` is the per-pixel maximum absolute
channel difference of image `i` against the reference, the entry at the
reference position is all zero, and the self-difference of any image is the
all-zero array. -/
theorem batch_diff_against_reference (images : List Image3) (refIdx : Nat)
    (href : refIdx < images.length) :
    (images.map fun im =>
        get_max_difference im (images.getD refIdx black_image)).length
      = images.length ∧
    (∀ i, i < images.length → ∀ y x,
      (images.map fun im =>
          get_max_difference im (images.getD refIdx black_image)).getD i zero1
          y x
        = get_max_difference (images.getD i black_image)
            (images.getD refIdx black_image) y x) ∧
    (∀ y x,
      (images.map fun im =>
          get_max_difference im (images.getD refIdx black_image)).getD refIdx
          zero1 y x = 0) ∧
    (∀ img : Image3, ∀ y x, get_max_difference img img y x = 0) := by
  have hself : ∀ img : Image3, ∀ y x, get_max_difference img img y x = 0 := by
    intro img y x
    unfold get_max_difference
    simp
  have hentry : ∀ i, i < images.length → ∀ y x,
      (images.map fun im =>
          get_max_difference im (images.getD refIdx black_image)).getD i zero1
          y x
        = get_max_difference (images.getD i black_image)
            (images.getD refIdx black_image) y x := by
    intro i hi y x
    rw [List.getD_eq_getElem _ _ (by simpa using hi), List.getElem_map,
      List.getD_eq_getElem _ _ hi]
  refine ⟨List.length_map _ _, hentry, ?_, hself⟩
  intro y x
  rw [hentry refIdx href y x]
  exact hself _ y x

/-- Witness for C8 on a concrete one-image batch. -/
theorem batch_diff_against_reference_witness :
    (([black_image].map fun im =>
        get_max_difference im ([black_image].getD 0 black_image)).getD 0 zero1
        1 2 = 0) :=
  (batch_diff_against_reference [black_image] 0 (by norm_num)).2.2.1 1 2

/-- Pointwise mapping of the samples commutes with listing them. -/
theorem arrElems3_map (img : Image3) (f : ℚ → ℚ) (h w : Nat) :
    arrElems3 (fun y x c => f (img y x c)) h w = (arrElems3 img h w).map f := by
  unfold arrElems3
  simp only [List.map_flatMap, List.map_map]
  rfl

/-- The maximum of a sample-wise `max`-homomorphic transform is the transform
of the maximum. -/
theorem arrMax3_map (img : Image3) (f : ℚ → ℚ)
    (hf : ∀ u v, f (max u v) = max (f u) (f v)) (h w : Nat) :
    arrMax3 (fun y x c => f (img y x c)) h w = f (arrMax3 img h w) := by
  unfold arrMax3
  rw [arrElems3_map img f h w]
  exact foldl_max_map f hf (arrElems3 img h w) (img 0 0 0)

/-- C9 (implicit).  For every decoded input image with nonnegative samples
and strictly positive maximum, the loader output has maximum exactly 1 and
all samples in `[-1, 1]`: the scaling divides by the image's own maximum,
not by a fixed constant. -/
theorem network_input_max_one (img : Image3)
    (hnn : ∀ y, y < 96 → ∀ x, x < 96 → ∀ c, c < 3 → 0 ≤ img y x c)
    (hpos : 0 < arrMax3 img 96 96) :
    ((load_image_as_network_input img).map fun out => arrMax3 out 96 96)
        = some 1 ∧
    (∀ y, y < 96 → ∀ x, x < 96 → ∀ c, c < 3 → ∀ v : ℚ,
      ((load_image_as_network_input img).map fun out => out y x c) = some v →
      -1 ≤ v ∧ v ≤ 1) := by
  have hM0 : arrMax3 img 96 96 ≠ 0 := ne_of_gt hpos
  have hC : (0:ℚ) < arrMax3 img 96 96 / 2 := div_pos hpos (by norm_num)
  have h2 : arrMax3 img 96 96 / (arrMax3 img 96 96 / 2) = 2 := by
    rw [div_div_eq_mul_div, mul_comm, mul_div_assoc, div_self hM0, mul_one]
  have hload : load_image_as_network_input img
      = some fun y x c => img y x c / (arrMax3 img 96 96 / 2) - 1 := by
    unfold load_image_as_network_input normalize_image3
    rw [if_neg hM0]
    rfl
  have hhom : ∀ u v : ℚ,
      max u v / (arrMax3 img 96 96 / 2) - 1
        = max (u / (arrMax3 img 96 96 / 2) - 1)
            (v / (arrMax3 img 96 96 / 2) - 1) := by
    intro u v
    rw [max_sub_sub_right, max_div_div_right hC.le]
  have hmax1 : arrMax3
      (fun y x c => img y x c / (arrMax3 img 96 96 / 2) - 1) 96 96 = 1 := by
    refine (arrMax3_map img (fun z => z / (arrMax3 img 96 96 / 2) - 1) hhom
      96 96).trans ?_
    show arrMax3 img 96 96 / (arrMax3 img 96 96 / 2) - 1 = 1
    rw [h2]
    norm_num
  constructor
  · rw [hload]
    exact congrArg some hmax1
  · intro y hy x hx c hc v hv
    rw [hload] at hv
    have hv' : img y x c / (arrMax3 img 96 96 / 2) - 1 = v := by
      simpa using hv
    have h0 : 0 ≤ img y x c := hnn y hy x hx c hc
    have hle : img y x c ≤ arrMax3 img 96 96 := le_arrMax3 img hy hx hc
    have hnonneg : 0 ≤ img y x c / (arrMax3 img 96 96 / 2) :=
      div_nonneg h0 hC.le
    have hdivle : img y x c / (arrMax3 img 96 96 / 2)
        ≤ arrMax3 img 96 96 / (arrMax3 img 96 96 / 2) :=
      (div_le_div_iff_of_pos_right hC).mpr hle
    constructor
    · rw [← hv']
      linarith
    · rw [← hv']
      rw [h2] at hdivle
      linarith

/-- Witness for C9 at the constant image with sample 100: the loader output
has maximum exactly 1. -/
theorem network_input_max_one_witness :
    ((load_image_as_network_input fun _ _ _ => 100).map fun out =>
        arrMax3 out 96 96) = some 1 :=
  (network_input_max_one (fun _ _ _ => 100)
    (fun _ _ _ _ _ _ => by norm_num)
    (by rw [arrMax3_const]; norm_num)).1

/-- C2 counterexample.  For the constant decoded image with every sample 100,
the loader returns 1 at pixel (0,0,0) — because it rescales by the image's
own maximum — whereas the claimed fixed formula `(x/127.5) - 1` gives
`100/(255/2) - 1 ≠ 1`. -/
theorem network_input_formula_counterexample :
    ((load_image_as_network_input fun _ _ _ => 100).map fun out => out 0 0 0)
        = some 1 ∧
    ¬((100:ℚ) / (255 / 2) - 1 = 1) := by
  constructor
  · have hM : arrMax3 (fun _ _ _ => (100:ℚ)) 96 96 = 100 := arrMax3_const 100 96 96
    unfold load_image_as_network_input normalize_image3
    rw [hM, if_neg (by norm_num : ¬((100:ℚ) = 0))]
    show some ((100:ℚ) / (100 / 2) - 1) = some 1
    norm_num
  · norm_num

/-- C2 amended.  The loader maps sample `x` to `x / (max/2) - 1` where `max`
is the image's own maximum; this equals the fixed affine formula
`(x/127.5) - 1` exactly when the image's maximum is 255, and then the
returned samples lie in `[-1, 1]` for 8-bit-range (nonnegative) input. -/
theorem network_input_formula_amended (img : Image3)
    (hmax : arrMax3 img 96 96 = 255)
    (hnn : ∀ y, y < 96 → ∀ x, x < 96 → ∀ c, c < 3 → 0 ≤ img y x c) :
    ∀ y x c, ((load_image_as_network_input img).map fun out => out y x c)
        = some (img y x c / (255 / 2) - 1) ∧
      (y < 96 → x < 96 → c < 3 →
        -1 ≤ img y x c / (255 / 2) - 1 ∧ img y x c / (255 / 2) - 1 ≤ 1) := by
  have hload : load_image_as_network_input img
      = some fun y x c => img y x c / (255 / 2) - 1 := by
    unfold load_image_as_network_input normalize_image3
    rw [hmax, if_neg (by norm_num : ¬((255:ℚ) = 0))]
    rfl
  intro y x c
  constructor
  · rw [hload]
    rfl
  · intro hy hx hc
    have h0 : 0 ≤ img y x c := hnn y hy x hx c hc
    have hle : img y x c ≤ 255 := by
      have h := le_arrMax3 img hy hx hc
      rw [hmax] at h
      exact h
    have hnonneg : 0 ≤ img y x c / (255 / 2 : ℚ) :=
      div_nonneg h0 (by norm_num)
    have hdivle : img y x c / (255 / 2 : ℚ) ≤ 255 / (255 / 2) :=
      (div_le_div_iff_of_pos_right (by norm_num)).mpr hle
    have h255 : (255:ℚ) / (255 / 2) = 2 := by norm_num
    constructor
    · linarith
    · rw [h255] at hdivle
      linarith

/-- Witness for the amended C2 at the constant image with sample 255. -/
theorem network_input_formula_amended_witness :
    ((load_image_as_network_input fun _ _ _ => 255).map fun out => out 0 0 0)
      = some ((255:ℚ) / (255 / 2) - 1) :=
  ((network_input_formula_amended (fun _ _ _ => 255)
      (arrMax3_const 255 96 96) (fun _ _ _ _ _ _ => by norm_num)) 0 0 0).1

/-- The loop body of `compute_overall_difference` is right-commutative: the
element-wise sum and the running maximum do not depend on which of two
canvases is folded first. -/
theorem accumulate_step_right_comm (st : Image1 × ℚ) (a b : Image1) :
    accumulate_step (accumulate_step st a) b
      = accumulate_step (accumulate_step st b) a := by
  have hmax : ∀ (q m : ℚ), (if q < m then m else q) = max q m := by
    intro q m
    rcases lt_or_le q m with h | h
    · rw [if_pos h, max_eq_right h.le]
    · rw [if_neg (not_lt.mpr h), max_eq_left h]
  unfold accumulate_step
  refine Prod.ext ?_ ?_
  · funext y x
    show st.1 y x + a y x + b y x = st.1 y x + b y x + a y x
    ring
  · show (if (if st.2 < arrMax1 a 672 672 then arrMax1 a 672 672 else st.2)
          < arrMax1 b 672 672 then arrMax1 b 672 672
        else if st.2 < arrMax1 a 672 672 then arrMax1 a 672 672 else st.2)
      = (if (if st.2 < arrMax1 b 672 672 then arrMax1 b 672 672 else st.2)
          < arrMax1 a 672 672 then arrMax1 a 672 672
        else if st.2 < arrMax1 b 672 672 then arrMax1 b 672 672 else st.2)
    rw [hmax st.2 (arrMax1 a 672 672), hmax st.2 (arrMax1 b 672 672),
      hmax, hmax]
    exact sup_right_comm st.2 (arrMax1 a 672 672) (arrMax1 b 672 672)

/-- Folding the accumulation loop over any permutation of the difference
canvases gives the same state. -/
theorem foldl_accumulate_perm (init : Image1 × ℚ) {l1 l2 : List Image1}
    (hperm : l1.Perm l2) :
    l1.foldl accumulate_step init = l2.foldl accumulate_step init := by
  induction hperm generalizing init with
  | nil => rfl
  | cons a _ ih => simp only [List.foldl_cons]; exact ih _
  | swap a b l =>
    simp only [List.foldl_cons]
    rw [accumulate_step_right_comm]
  | trans _ _ ih1 ih2 => exact (ih1 init).trans (ih2 init)

/-- C6.  Accumulation is order-independent: folding the per-file difference
canvases through the accumulation loop in any permutation yields the same
final sum canvas and the same final maximum, and hence
`compute_overall_difference` does not depend on the order of the files. -/
theorem accumulate_order_independent :
    (∀ (init : Image1 × ℚ) (l1 l2 : List Image1), l1.Perm l2 →
      l1.foldl accumulate_step init = l2.foldl accumulate_step init) ∧
    (∀ files1 files2 : List Image3, files1.Perm files2 →
      compute_overall_difference files1 = compute_overall_difference files2) := by
  refine ⟨fun init l1 l2 h => foldl_accumulate_perm init h, ?_⟩
  intro f1 f2 h
  unfold compute_overall_difference
  rw [foldl_accumulate_perm (zero1, 0) (h.map per_file_difference_square)]

/-- Witness for C6: swapping two concrete canvases leaves the accumulated
state unchanged. -/
theorem accumulate_order_independent_witness :
    ([(fun _ _ => (1:ℚ)), fun _ _ => (2:ℚ)].foldl accumulate_step (zero1, 0)
      = [(fun _ _ => (2:ℚ)), fun _ _ => (1:ℚ)].foldl accumulate_step
          (zero1, 0)) :=
  accumulate_order_independent.1 (zero1, 0) _ _ (List.Perm.swap _ _ _)

/-- The extraction loop of `get_generated_images` yields 49 sub-images. -/
theorem gen_length (c : Image3) : (get_generated_images c).length = 49 := by
  unfold get_generated_images
  rw [extract_length]

/-- Pointwise content of extracted sub-image `j`: the canvas slice of grid
row `j / 7`, grid column `j % 7 + 3`. -/
theorem gen_pointwise (c : Image3) (j : Nat) (hj : j < 49) :
    ∀ y x ch, (get_generated_images c).getD j black_image y x ch
      = c (j / 7 * 96 + y) (96 * (j % 7 + 3) + x) ch := by
  intro y x ch
  unfold get_generated_images
  rw [extract_getD _ black_image j (by omega) y x]

/-- Entry `j` of the mapped difference list is the difference of sub-image
`j` against the reference. -/
theorem map_diff_getD (images : List Image3) (neutral : Image3) (j : Nat)
    (hj : j < images.length) (y x : Nat) :
    ((images.map fun im => get_max_difference im neutral).getD j zero1) y x
      = get_max_difference (images.getD j black_image) neutral y x := by
  rw [List.getD_eq_getElem _ _ (by simpa using hj), List.getElem_map,
    List.getD_eq_getElem _ _ hj]

/-- Every cell of the corner-scenario composite other than the corner one is
all zero. -/
theorem corner_canvas_cell_zero (j : Nat) (hj : j < 49) (hj0 : j ≠ 0)
    (y x ch : Nat) (hy : y < 96) :
    cornerScenarioCanvas (j / 7 * 96 + y) (96 * (j % 7 + 3) + x) ch = 0 := by
  unfold cornerScenarioCanvas
  rw [if_neg]
  rintro ⟨h1, h2, h3, h4⟩
  omega

/-- The corner cell of the corner-scenario composite is 10 on the red
channel and 0 on the others. -/
theorem corner_canvas_cell_corner (y x ch : Nat) (hy : y < 96) (hx : x < 96) :
    cornerScenarioCanvas (0 / 7 * 96 + y) (96 * (0 % 7 + 3) + x) ch
      = if ch = 0 then 10 else 0 := by
  unfold cornerScenarioCanvas
  by_cases h : ch = 0
  · rw [if_pos ⟨by omega, by omega, by omega, h⟩, if_pos h]
  · rw [if_neg (fun hcon => h hcon.2.2.2), if_neg h]

/-- In the corner scenario the per-cell difference against the neutral image
is 10 on the corner cell and 0 elsewhere. -/
theorem corner_diff_cell (j : Nat) (hj : j < 49) (y x : Nat) (hy : y < 96)
    (hx : x < 96) :
    get_max_difference ((get_generated_images cornerScenarioCanvas).getD j
        black_image)
      ((get_generated_images cornerScenarioCanvas).getD 24 black_image) y x
      = if j = 0 then (10:ℚ) else 0 := by
  unfold get_max_difference
  simp only [gen_pointwise cornerScenarioCanvas j hj,
    gen_pointwise cornerScenarioCanvas 24 (by norm_num)]
  by_cases hj0 : j = 0
  · subst hj0
    rw [corner_canvas_cell_corner y x 0 hy hx,
      corner_canvas_cell_corner y x 1 hy hx,
      corner_canvas_cell_corner y x 2 hy hx,
      corner_canvas_cell_zero 24 (by norm_num) (by norm_num) y x 0 hy,
      corner_canvas_cell_zero 24 (by norm_num) (by norm_num) y x 1 hy,
      corner_canvas_cell_zero 24 (by norm_num) (by norm_num) y x 2 hy,
      if_pos rfl]
    norm_num
  · rw [corner_canvas_cell_zero j hj hj0 y x 0 hy,
      corner_canvas_cell_zero j hj hj0 y x 1 hy,
      corner_canvas_cell_zero j hj hj0 y x 2 hy,
      corner_canvas_cell_zero 24 (by norm_num) (by norm_num) y x 0 hy,
      corner_canvas_cell_zero 24 (by norm_num) (by norm_num) y x 1 hy,
      corner_canvas_cell_zero 24 (by norm_num) (by norm_num) y x 2 hy,
      if_neg hj0]
    norm_num

/-- The per-file 7×7 difference tile of the corner scenario: 10 on the
corner 96×96 block, 0 everywhere else. -/
theorem corner_per_file_square (y x : Nat) (hy : y < 672) (hx : x < 672) :
    per_file_difference_square cornerScenarioCanvas y x
      = if y < 96 ∧ x < 96 then (10:ℚ) else 0 := by
  show tile_to_square ((get_generated_images cornerScenarioCanvas).map fun im =>
      get_max_difference im
        ((get_generated_images cornerScenarioCanvas).getD 24 black_image)) y x
    = _
  unfold tile_to_square
  have hlenmap : ((get_generated_images cornerScenarioCanvas).map fun im =>
      get_max_difference im
        ((get_generated_images cornerScenarioCanvas).getD 24
          black_image)).length = 49 := by
    rw [List.length_map, gen_length]
  have hY : y / 96 * 96 + y % 96 = y := by omega
  have hX : x / 96 * 96 + x % 96 = x := by omega
  have hcr := compose_read (0:ℚ)
    ((get_generated_images cornerScenarioCanvas).map fun im =>
      get_max_difference im
        ((get_generated_images cornerScenarioCanvas).getD 24 black_image))
    (by norm_num : (0:Nat) < 96) (by norm_num : (0:Nat) < 7) zero1
    (y / 96) (x / 96) (y % 96) (x % 96) (by omega) (by omega) (by omega)
    (by rw [hlenmap]; omega)
  rw [hY, hX] at hcr
  rw [hcr,
    map_diff_getD _ _ (y / 96 * 7 + x / 96) (by rw [gen_length]; omega)
      (y % 96) (x % 96),
    corner_diff_cell (y / 96 * 7 + x / 96) (by omega) (y % 96) (x % 96)
      (by omega) (by omega)]
  by_cases hc : y < 96 ∧ x < 96
  · have h0 : y / 96 * 7 + x / 96 = 0 := by omega
    rw [if_pos h0, if_pos hc]
  · have h0 : ¬(y / 96 * 7 + x / 96 = 0) := by omega
    rw [if_neg h0, if_neg hc]

/-- Any canvas that is 10 on the corner block and 0 elsewhere has maximum
10. -/
theorem corner_arrMax_aux (f : Image1)
    (hf : ∀ y x, y < 672 → x < 672 →
      f y x = if y < 96 ∧ x < 96 then (10:ℚ) else 0) :
    arrMax1 f 672 672 = 10 := by
  have h00 : f 0 0 = 10 := by
    rw [hf 0 0 (by norm_num) (by norm_num),
      if_pos ⟨by norm_num, by norm_num⟩]
  have hb : ∀ y < 672, ∀ x < 672, f y x ≤ f 0 0 := by
    intro y hy x hx
    rw [hf y x hy hx, h00]
    split_ifs <;> norm_num
  rw [arrMax1_eq_of_le hb, h00]

/-- `compute_overall_difference` on the single corner-scenario file
succeeds, and its output equals the (un-rescaled) difference tile: the final
normalization divides by `allover_max / allover_max = 1`. -/
theorem corner_overall_difference_fn :
    ∃ out, compute_overall_difference [cornerScenarioCanvas] = some out ∧
      ∀ y x, y < 672 → x < 672 →
        out y x = if y < 96 ∧ x < 96 then (10:ℚ) else 0 := by
  have hsq := corner_per_file_square
  have hres : ∀ y x, y < 672 → x < 672 →
      (fun y x => zero1 y x + per_file_difference_square cornerScenarioCanvas
        y x) y x = if y < 96 ∧ x < 96 then (10:ℚ) else 0 := by
    intro y x hy hx
    show zero1 y x + per_file_difference_square cornerScenarioCanvas y x = _
    rw [hsq y x hy hx]
    show 0 + _ = _
    rw [zero_add]
  have hmaxres : arrMax1 (fun y x => zero1 y x +
      per_file_difference_square cornerScenarioCanvas y x) 672 672 = 10 :=
    corner_arrMax_aux _ hres
  have hmaxsq : arrMax1 (per_file_difference_square cornerScenarioCanvas)
      672 672 = 10 := corner_arrMax_aux _ hsq
  have hacc : ([cornerScenarioCanvas].map per_file_difference_square).foldl
      accumulate_step (zero1, 0)
      = (fun y x => zero1 y x +
            per_file_difference_square cornerScenarioCanvas y x,
         if (0:ℚ) < arrMax1 (per_file_difference_square cornerScenarioCanvas)
            672 672 then
          arrMax1 (per_file_difference_square cornerScenarioCanvas) 672 672
         else 0) := rfl
  have hcod : compute_overall_difference [cornerScenarioCanvas]
      = normalize_image (fun y x => zero1 y x +
          per_file_difference_square cornerScenarioCanvas y x) 672 672
          (if (0:ℚ) < arrMax1 (per_file_difference_square
              cornerScenarioCanvas) 672 672 then
            arrMax1 (per_file_difference_square cornerScenarioCanvas) 672 672
          else 0) := by
    unfold compute_overall_difference
    rw [hacc]
  rw [hcod, hmaxsq, if_pos (by norm_num : (0:ℚ) < 10)]
  unfold normalize_image
  rw [hmaxres, if_neg (by norm_num : ¬((10:ℚ) = 0))]
  refine ⟨_, rfl, ?_⟩
  intro y x hy hx
  show (zero1 y x + per_file_difference_square cornerScenarioCanvas y x)
    / (10 / 10) = _
  rw [show ((10:ℚ) / 10) = 1 by norm_num, div_one,
    show zero1 y x = 0 from rfl, zero_add, hsq y x hy hx]

/-- Pointwise form of the corner-scenario heat map. -/
theorem corner_overall_difference (y x : Nat) (hy : y < 672) (hx : x < 672) :
    ((compute_overall_difference [cornerScenarioCanvas]).map fun out =>
        out y x) = some (if y < 96 ∧ x < 96 then (10:ℚ) else 0) := by
  obtain ⟨out, ho, hv⟩ := corner_overall_difference_fn
  rw [ho]
  show some (out y x) = _
  rw [hv y x hy hx]

/-- The stored 8-bit gray values of the corner-scenario heat map: 10 on the
corner block, 0 elsewhere. -/
theorem corner_overall_saved (y x : Nat) (hy : y < 672) (hx : x < 672) :
    ((compute_overall_difference_saved [cornerScenarioCanvas]).map fun out =>
        out y x) = some (if y < 96 ∧ x < 96 then (10:ℤ) else 0) := by
  obtain ⟨out, ho, hv⟩ := corner_overall_difference_fn
  unfold compute_overall_difference_saved
  rw [ho]
  show some (save_image_black_and_white_pixels out y x) = _
  unfold save_image_black_and_white_pixels
  rw [hv y x hy hx]
  by_cases hc : y < 96 ∧ x < 96
  · rw [if_pos hc, if_pos hc]
    unfold rat_trunc
    rw [if_pos (by norm_num : (0:ℚ) ≤ 10)]
    norm_num
  · rw [if_neg hc, if_neg hc]
    unfold rat_trunc
    rw [if_pos (by norm_num : (0:ℚ) ≤ 0)]
    norm_num

/-- C3 amended.  In the corner-difference scenario the per-file 7×7
difference tile is zero except the corner cell valued 10, and after the
final normalization against the accumulated maximum the corner cell of the
saved heat map holds the accumulated maximum itself (gray value 10) — the
map's largest intensity, but not 255. -/
theorem corner_scenario_heatmap (y x : Nat) (hy : y < 672) (hx : x < 672) :
    per_file_difference_square cornerScenarioCanvas y x
        = (if y < 96 ∧ x < 96 then (10:ℚ) else 0) ∧
    ((compute_overall_difference [cornerScenarioCanvas]).map fun out =>
        out y x) = some (if y < 96 ∧ x < 96 then (10:ℚ) else 0) ∧
    ((compute_overall_difference_saved [cornerScenarioCanvas]).map fun out =>
        out y x) = some (if y < 96 ∧ x < 96 then (10:ℤ) else 0) :=
  ⟨corner_per_file_square y x hy hx, corner_overall_difference y x hy hx,
    corner_overall_saved y x hy hx⟩

/-- C3 counterexample.  The corner cell of the saved heat map stores gray
value 10, not the claimed maximum gray intensity 255. -/
theorem corner_scenario_not_255 :
    ((compute_overall_difference_saved [cornerScenarioCanvas]).map fun out =>
        out 0 0) = some 10 ∧ (10:ℤ) ≠ 255 := by
  refine ⟨?_, by decide⟩
  have h := corner_overall_saved 0 0 (by norm_num) (by norm_num)
  rw [h]
  norm_num

/-- Witness for the amended C3 at the corner pixel (0, 0). -/
theorem corner_scenario_heatmap_witness :
    ((compute_overall_difference [cornerScenarioCanvas]).map fun out =>
        out 0 0) = some 10 := by
  have h := (corner_scenario_heatmap 0 0 (by norm_num) (by norm_num)).2.1
  simpa using h
